import Mathlib

/-!
Shallow embedding of src/src/backend/libpq/be-fsstubs.c: the transaction-scoped
large-object handle table (cookies array), the stream operations that validate
handles and forward to the inversion store, the transaction-end hook lo_commit,
and the import/export copy loop and path-name truncation.

The external store (inv_open, inv_create, inv_read, inv_write, inv_seek,
inv_tell, inv_close, inv_cleanindex) is abstracted as function parameters;
a store descriptor (LargeObjectDesc pointer) is abstracted as a natural
number.  elog(ERROR, ...) aborts the current operation, which we model by
returning an error value carrying the error kind that the message denotes.
Calls made to the store (inv_close, inv_cleanindex) are recorded as lists of
the descriptors they were invoked on, so that claims about which store
routines were called are statable.
-/

namespace BeFsstubs

/-- MAX_LOBJ_FDS from the source: capacity of the cookies array. -/
def MAX_LOBJ_FDS : Nat := 256

/-- BUFSIZE from the source: the fixed copy-chunk size of lo_import/lo_export. -/
def BUFSIZE : Nat := 1024

/-- FNAME_BUFSIZE from the source: size of the path-name buffer. -/
def FNAME_BUFSIZE : Nat := 8192

/-- VARHDRSZ: size in bytes of the varlena header prefixed to a byte buffer. -/
def VARHDRSZ : Int := 4

/-- A store descriptor (a LargeObjectDesc pointer), abstracted. -/
abbrev Desc := Nat

/-- The error kinds signalled by the handle-validating operations:
elog out-of-range (descriptor outside 0..MAX_LOBJ_FDS-1) and elog
invalid-descriptor (slot empty). -/
inductive LOErr where
  | outOfRange
  | invalidHandle
deriving DecidableEq

/-- The module-level mutable state: the cookies array (a fixed-size array of
optional descriptors, modelled as a list) and whether the private memory
context fscxt is currently allocated. -/
structure LOState where
  cookies : List (Option Desc)
  fscxt : Bool
deriving DecidableEq

/-- newLOfd: scan the cookies array in index order for the first NULL slot,
store the descriptor there and return the index; return failure (C returns -1)
when no slot is free. -/
def newLOfd (d : Desc) : List (Option Desc) → Option (Nat × List (Option Desc))
  | [] => none
  | none :: rest => some (0, some d :: rest)
  | some c :: rest =>
    match newLOfd d rest with
    | none => none
    | some (i, rest') => some (i + 1, some c :: rest')

/-- deleteLOfd: clear the slot (cookies[fd] = NULL). -/
def deleteLOfd (fd : Nat) (ck : List (Option Desc)) : List (Option Desc) :=
  ck.set fd none

/-- The handle-validation prologue shared by lo_close, lo_read, lo_write,
lo_lseek and lo_tell: reject fd outside 0..MAX_LOBJ_FDS-1 as out of range,
then reject an empty slot as an invalid descriptor, otherwise return the
descriptor stored in the slot. -/
def lookupFd (ck : List (Option Desc)) (fd : Int) : Except LOErr Desc :=
  if fd < 0 ∨ (MAX_LOBJ_FDS : Int) ≤ fd then .error .outOfRange
  else
    match ck.getD fd.toNat none with
    | none => .error .invalidHandle
    | some d => .ok d

/-- lo_close: validate the handle, inv_close the descriptor, clear the slot.
On success returns the updated cookies array together with the descriptor
that was passed to inv_close. -/
def lo_close (ck : List (Option Desc)) (fd : Int) :
    Except LOErr (List (Option Desc) × Desc) :=
  match lookupFd ck fd with
  | .error e => .error e
  | .ok d => .ok (deleteLOfd fd.toNat ck, d)

/-- lo_read: validate the handle, then forward to inv_read (abstracted as ir,
taking the descriptor and the requested length). -/
def lo_read (ir : Desc → Int → Int) (ck : List (Option Desc)) (fd : Int)
    (len : Int) : Except LOErr Int :=
  match lookupFd ck fd with
  | .error e => .error e
  | .ok d => .ok (ir d len)

/-- lo_write: validate the handle, then forward to inv_write (abstracted). -/
def lo_write (iw : Desc → Int → Int) (ck : List (Option Desc)) (fd : Int)
    (len : Int) : Except LOErr Int :=
  match lookupFd ck fd with
  | .error e => .error e
  | .ok d => .ok (iw d len)

/-- lo_lseek: validate the handle, then forward to inv_seek (abstracted). -/
def lo_lseek (isk : Desc → Int → Int → Int) (ck : List (Option Desc))
    (fd offset whence : Int) : Except LOErr Int :=
  match lookupFd ck fd with
  | .error e => .error e
  | .ok d => .ok (isk d offset whence)

/-- lo_tell: validate the handle, then forward to inv_tell (abstracted,
no context switch in the source). -/
def lo_tell (it : Desc → Int) (ck : List (Option Desc)) (fd : Int) :
    Except LOErr Int :=
  match lookupFd ck fd with
  | .error e => .error e
  | .ok d => .ok (it d)

/-- lo_open: create the fscxt memory context if absent, ask the store to open
the object (inv_open abstracted as ro); on store failure return -1; otherwise
register the descriptor with newLOfd and return the slot index, or -1 when
newLOfd found no free slot.  The third component records the inv_close calls
made during the operation (the source makes none on any path of lo_open). -/
def lo_open (ro : Nat → Int → Option Desc) (lobjId : Nat) (mode : Int)
    (s : LOState) : Int × LOState × List Desc :=
  let s0 : LOState := { s with fscxt := true }
  match ro lobjId mode with
  | none => (-1, s0, [])
  | some d =>
    match newLOfd d s0.cookies with
    | none => (-1, s0, [])
    | some (fd, ck') => ((fd : Int), { s0 with cookies := ck' }, [])

/-- lo_creat: create the fscxt memory context if absent, ask the store to
create a new object (inv_create abstracted as ic); on store failure return
InvalidOid (0); otherwise read the new object identifier off the descriptor
(abstracted as oidOf), inv_close the descriptor and return the identifier.
The third component records the inv_close calls made. -/
def lo_creat (ic : Int → Option Desc) (oidOf : Desc → Nat) (mode : Int)
    (s : LOState) : Nat × LOState × List Desc :=
  let s0 : LOState := { s with fscxt := true }
  match ic mode with
  | none => (0, s0, [])
  | some d => (oidOf d, s0, [d])

/-- The per-slot loop of lo_commit: for every slot, if it is occupied then
(when committing) inv_cleanindex the descriptor, and clear the slot.
Returns the updated cookies array and the list of descriptors passed to
inv_cleanindex, in slot order. -/
def commitLoop (isCommit : Bool) : List (Option Desc) → List (Option Desc) × List Desc
  | [] => ([], [])
  | c :: rest =>
    let r := commitLoop isCommit rest
    match c with
    | none => (none :: r.1, r.2)
    | some d => (none :: r.1, if isCommit then d :: r.2 else r.2)

/-- lo_commit: if fscxt was never created, do nothing; otherwise run the
per-slot cleanup loop and destroy the memory context (fscxt = NULL).
Returns the new state and the list of inv_cleanindex calls made. -/
def lo_commit (isCommit : Bool) (s : LOState) : LOState × List Desc :=
  if s.fscxt then
    let r := commitLoop isCommit s.cookies
    ({ cookies := r.1, fscxt := false }, r.2)
  else (s, [])

/-- loread: clamp a negative requested length to zero, allocate a result
buffer of VARHDRSZ plus the clamped length, and issue the read with the
clamped length.  Returns the allocation size and the lo_read result. -/
def loread (ir : Desc → Int → Int) (ck : List (Option Desc)) (fd : Int)
    (len : Int) : Int × Except LOErr Int :=
  let l := if len < 0 then 0 else len
  (VARHDRSZ + l, lo_read ir ck fd l)

/-- The path-name truncation performed identically by lo_import (lines
384-388) and lo_export (lines 463-467): nbytes is the string length, clamped
to FNAME_BUFSIZE - 1 when it is FNAME_BUFSIZE or more, and only the first
nbytes bytes are copied into the file-name buffer. -/
def fnamebufCopy (path : List Char) : List Char :=
  path.take (if FNAME_BUFSIZE ≤ path.length then FNAME_BUFSIZE - 1 else path.length)

/-- The sequence of chunk sizes read by the lo_import copy loop from a file
of n bytes: FileRead delivers min BUFSIZE (bytes remaining) per call and the
loop stops when it returns 0.  The first argument is fuel; since every
iteration consumes at least one byte, fuel n suffices for a file of n bytes. -/
def chunksOfAux : Nat → Nat → List Nat
  | 0, _ => []
  | _, 0 => []
  | fuel + 1, n + 1 =>
    min BUFSIZE (n + 1) :: chunksOfAux fuel (n + 1 - min BUFSIZE (n + 1))

/-- The chunk sizes for a file of n bytes. -/
def chunksOf (n : Nat) : List Nat := chunksOfAux n n

/-- The lo_import copy loop: repeatedly FileRead up to BUFSIZE bytes from the
remaining n, inv_write the chunk (the store's reply abstracted as w, taking
the chunk index and requested length and returning the count written); if the
store wrote fewer bytes than the chunk held, abort the whole operation with
the fatal copy error.  On success returns the list of chunk sizes written.
The first argument is fuel, as in chunksOfAux. -/
def importLoopAux (w : Nat → Nat → Nat) : Nat → Nat → Nat → Except Unit (List Nat)
  | 0, _, _ => .ok []
  | _, _, 0 => .ok []
  | fuel + 1, idx, n + 1 =>
    let c := min BUFSIZE (n + 1)
    if w idx c < c then .error ()
    else
      match importLoopAux w fuel (idx + 1) (n + 1 - c) with
      | .error e => .error e
      | .ok l => .ok (c :: l)

/-- The lo_import copy loop over a whole file of n bytes. -/
def lo_import_copy (w : Nat → Nat → Nat) (n : Nat) : Except Unit (List Nat) :=
  importLoopAux w n 0 n

/-! ### List helper lemmas -/

theorem getD_len_le (ck : List (Option Desc)) (i : Nat) (h : ck.length ≤ i) :
    ck.getD i none = none := by
  induction ck generalizing i with
  | nil => simp [List.getD]
  | cons c t ih =>
    cases i with
    | zero => simp at h
    | succ j => simpa using ih j (by simpa using h)

theorem lt_len_of_getD_some (ck : List (Option Desc)) (i : Nat) (d : Desc)
    (h : ck.getD i none = some d) : i < ck.length := by
  by_contra hc
  rw [getD_len_le ck i (by omega)] at h
  exact Option.noConfusion h

theorem getD_set_self (ck : List (Option Desc)) (i : Nat) (v : Option Desc)
    (h : i < ck.length) : (ck.set i v).getD i none = v := by
  induction ck generalizing i with
  | nil => simp at h
  | cons c t ih =>
    cases i with
    | zero => simp
    | succ j => simpa using ih j (by simpa using h)

theorem getD_set_ne (ck : List (Option Desc)) (i j : Nat) (v : Option Desc)
    (h : i ≠ j) : (ck.set j v).getD i none = ck.getD i none := by
  induction ck generalizing i j with
  | nil => simp
  | cons c t ih =>
    cases j with
    | zero =>
      cases i with
      | zero => exact absurd rfl h
      | succ i' => simp
    | succ j' =>
      cases i with
      | zero => simp
      | succ i' => simpa using ih i' j' (by omega)

theorem getD_replicate_none (n i : Nat) :
    (List.replicate n (none : Option Desc)).getD i none = none := by
  induction n generalizing i with
  | zero => simp [List.getD]
  | succ m ih =>
    cases i with
    | zero => simp [List.replicate]
    | succ j => simp [List.replicate, ih j]

/-! ### Validation lemmas for lookupFd -/

theorem lookupFd_outOfRange (ck : List (Option Desc)) (fd : Int)
    (h : fd < 0 ∨ (MAX_LOBJ_FDS : Int) ≤ fd) :
    lookupFd ck fd = .error .outOfRange := by
  unfold lookupFd
  rw [if_pos h]

theorem lookupFd_invalid (ck : List (Option Desc)) (fd : Int)
    (h0 : 0 ≤ fd) (h1 : fd < (MAX_LOBJ_FDS : Int))
    (he : ck.getD fd.toNat none = none) :
    lookupFd ck fd = .error .invalidHandle := by
  unfold lookupFd
  rw [if_neg (by omega), he]

theorem lookupFd_ok_inv (ck : List (Option Desc)) (fd : Int) (d : Desc)
    (h : lookupFd ck fd = .ok d) :
    0 ≤ fd ∧ fd < (MAX_LOBJ_FDS : Int) ∧ ck.getD fd.toNat none = some d := by
  unfold lookupFd at h
  by_cases hr : fd < 0 ∨ (MAX_LOBJ_FDS : Int) ≤ fd
  · rw [if_pos hr] at h
    exact absurd h (by simp)
  · rw [if_neg hr] at h
    refine ⟨by omega, by omega, ?_⟩
    cases hg : ck.getD fd.toNat none with
    | none => rw [hg] at h; exact absurd h (by simp)
    | some d0 =>
      rw [hg] at h
      simp only [Except.ok.injEq] at h
      exact congrArg some h

/-! ### Claim theorems: path truncation (C9), loread clamp (C10), lo_creat (C7) -/

/-- C9: a path longer than 8191 bytes is truncated to its first 8191 bytes by
lo_import and lo_export, and a path of at most 8191 bytes is used unchanged. -/
theorem C9_path_truncation (path : List Char) :
    (8191 < path.length → fnamebufCopy path = path.take 8191) ∧
    (path.length ≤ 8191 → fnamebufCopy path = path) := by
  unfold fnamebufCopy FNAME_BUFSIZE
  constructor
  · intro h
    rw [if_pos (by omega : 8192 ≤ path.length)]
  · intro h
    rw [if_neg (by omega), List.take_length]

/-- Witness for C9 at a 9000-byte path (truncated) and a 5-byte path (kept). -/
theorem C9_path_truncation_witness :
    (8191 < (List.replicate 9000 'a').length ∧
      fnamebufCopy (List.replicate 9000 'a') = (List.replicate 9000 'a').take 8191) ∧
    ((List.replicate 5 'b').length ≤ 8191 ∧
      fnamebufCopy (List.replicate 5 'b') = List.replicate 5 'b') :=
  ⟨⟨by rw [List.length_replicate]; omega,
    (C9_path_truncation (List.replicate 9000 'a')).1 (by rw [List.length_replicate]; omega)⟩,
   ⟨by rw [List.length_replicate]; omega,
    (C9_path_truncation (List.replicate 5 'b')).2 (by rw [List.length_replicate]; omega)⟩⟩

/-- C10: loread treats a negative requested length as zero: the result buffer
allocation is VARHDRSZ plus zero and the read is issued with length zero; and
for every requested length the allocation size is non-negative. -/
theorem C10_loread_negative_length (ir : Desc → Int → Int) (ck : List (Option Desc))
    (fd len : Int) (h : len < 0) :
    loread ir ck fd len = (VARHDRSZ + 0, lo_read ir ck fd 0) ∧
    (∀ len' : Int, 0 ≤ (loread ir ck fd len').1) := by
  constructor
  · simp [loread, if_pos h]
  · intro len'
    simp only [loread, VARHDRSZ]
    split <;> omega

/-- Witness for C10 at length -5. -/
theorem C10_loread_negative_length_witness :
    (-5 : Int) < 0 ∧
    loread (fun _ _ => 0) [] 3 (-5) = (VARHDRSZ + 0, lo_read (fun _ _ => 0) [] 3 0) ∧
    0 ≤ (loread (fun _ _ => 0) [] 3 7).1 :=
  ⟨by decide, (C10_loread_negative_length (fun _ _ => 0) [] 3 (-5) (by decide)).1,
   (C10_loread_negative_length (fun _ _ => 0) [] 3 (-5) (by decide)).2 7⟩

/-- C7: lo_creat never touches the handle table (the cookies array is the same
before and after, for every mode and state), and when the store creates a
descriptor, lo_creat returns the new object identifier and immediately
inv_closes the store-level descriptor. -/
theorem C7_lo_creat_no_handle (ic : Int → Option Desc) (oidOf : Desc → Nat)
    (mode : Int) (s : LOState) (d : Desc) :
    (lo_creat ic oidOf mode s).2.1.cookies = s.cookies ∧
    (ic mode = some d →
      (lo_creat ic oidOf mode s).1 = oidOf d ∧
      (lo_creat ic oidOf mode s).2.2 = [d]) := by
  constructor
  · cases h : ic mode <;> simp [lo_creat, h]
  · intro h
    simp [lo_creat, h]

/-- Witness for C7: store creates descriptor 4, identifier accessor adds 100. -/
theorem C7_lo_creat_no_handle_witness :
    (fun _ : Int => (some 4 : Option Desc)) 0 = some 4 ∧
    (lo_creat (fun _ => some 4) (fun d => d + 100) 0 ⟨[none], false⟩).2.1.cookies
      = [(none : Option Desc)] ∧
    (lo_creat (fun _ => some 4) (fun d => d + 100) 0 ⟨[none], false⟩).1 = 104 ∧
    (lo_creat (fun _ => some 4) (fun d => d + 100) 0 ⟨[none], false⟩).2.2 = [4] := by
  have h := C7_lo_creat_no_handle (fun _ => some 4) (fun d => d + 100) 0 ⟨[none], false⟩ 4
  exact ⟨rfl, h.1, by simpa using (h.2 rfl).1, (h.2 rfl).2⟩

/-- C4: each stream operation taking a handle (lo_close, lo_read, lo_write,
lo_lseek, lo_tell) rejects a handle outside 0..MAX_LOBJ_FDS-1 with the
out-of-range error kind, rejects an in-range handle whose slot is empty with
the invalid-handle error kind, and a second lo_close of a handle just closed
successfully fails with the invalid-handle error kind. -/
theorem C4_stream_validation (ir iw : Desc → Int → Int)
    (isk : Desc → Int → Int → Int) (it : Desc → Int) :
    (∀ (ck : List (Option Desc)) (fd len off wh : Int),
      (fd < 0 ∨ (MAX_LOBJ_FDS : Int) ≤ fd) →
        lo_close ck fd = .error .outOfRange ∧
        lo_read ir ck fd len = .error .outOfRange ∧
        lo_write iw ck fd len = .error .outOfRange ∧
        lo_lseek isk ck fd off wh = .error .outOfRange ∧
        lo_tell it ck fd = .error .outOfRange) ∧
    (∀ (ck : List (Option Desc)) (fd len off wh : Int),
      0 ≤ fd → fd < (MAX_LOBJ_FDS : Int) → ck.getD fd.toNat none = none →
        lo_close ck fd = .error .invalidHandle ∧
        lo_read ir ck fd len = .error .invalidHandle ∧
        lo_write iw ck fd len = .error .invalidHandle ∧
        lo_lseek isk ck fd off wh = .error .invalidHandle ∧
        lo_tell it ck fd = .error .invalidHandle) ∧
    (∀ (ck ck' : List (Option Desc)) (fd : Int) (d : Desc),
      lo_close ck fd = .ok (ck', d) →
        lo_close ck' fd = .error .invalidHandle) := by
  refine ⟨?_, ?_, ?_⟩
  · intro ck fd len off wh h
    have hl := lookupFd_outOfRange ck fd h
    exact ⟨by simp [lo_close, hl], by simp [lo_read, hl], by simp [lo_write, hl],
      by simp [lo_lseek, hl], by simp [lo_tell, hl]⟩
  · intro ck fd len off wh h0 h1 he
    have hl := lookupFd_invalid ck fd h0 h1 he
    exact ⟨by simp [lo_close, hl], by simp [lo_read, hl], by simp [lo_write, hl],
      by simp [lo_lseek, hl], by simp [lo_tell, hl]⟩
  · intro ck ck' fd d hc
    unfold lo_close at hc
    cases hl : lookupFd ck fd with
    | error e => rw [hl] at hc; exact absurd hc (by simp)
    | ok d0 =>
      rw [hl] at hc
      simp only [Except.ok.injEq, Prod.mk.injEq] at hc
      obtain ⟨hck, -⟩ := hc
      obtain ⟨h0, h1, hg⟩ := lookupFd_ok_inv ck fd d0 hl
      have hlen := lt_len_of_getD_some ck fd.toNat d0 hg
      have hnone : ck'.getD fd.toNat none = none := by
        rw [← hck]
        exact getD_set_self ck fd.toNat none hlen
      simp [lo_close, lookupFd_invalid ck' fd h0 h1 hnone]

/-- Witness for C4: out-of-range handle 300 and -1, in-range empty slot 1,
and a double close of handle 0 on the two-slot table with slot 0 occupied. -/
theorem C4_stream_validation_witness :
    lo_close [some 5, none] 300 = .error .outOfRange ∧
    lo_tell (fun _ => 0) [some 5, none] (-1) = .error .outOfRange ∧
    lo_read (fun _ _ => 0) [some 5, none] 1 0 = .error .invalidHandle ∧
    lo_close [none, none] 0 = .error .invalidHandle := by
  have h := C4_stream_validation (fun _ _ => 0) (fun _ _ => 0) (fun _ _ _ => 0) (fun _ => 0)
  exact ⟨(h.1 [some 5, none] 300 0 0 0 (by decide)).1,
    (h.1 [some 5, none] (-1) 0 0 0 (by decide)).2.2.2.2,
    (h.2.1 [some 5, none] 1 0 0 0 (by decide) (by decide) (by decide)).2.1,
    h.2.2 [some 5, none] [none, none] 0 5 rfl⟩

/-! ### newLOfd allocation lemmas -/

theorem newLOfd_first_free (d : Desc) (ck : List (Option Desc))
    (h : ∃ i, i < ck.length ∧ ck.getD i none = none) :
    ∃ j, j < ck.length ∧ newLOfd d ck = some (j, ck.set j (some d)) ∧
      ck.getD j none = none ∧ ∀ i, i < j → ck.getD i none ≠ none := by
  induction ck with
  | nil => obtain ⟨i, hi, -⟩ := h; simp at hi
  | cons c t ih =>
    cases c with
    | none =>
      exact ⟨0, by simp, by simp [newLOfd], by simp,
        fun i hi => absurd hi (by omega)⟩
    | some c0 =>
      have ht : ∃ i, i < t.length ∧ t.getD i none = none := by
        obtain ⟨i, hi, hg⟩ := h
        cases i with
        | zero => simp at hg
        | succ i' => exact ⟨i', by simpa using hi, by simpa using hg⟩
      obtain ⟨j, hj, heq, hfree, hocc⟩ := ih ht
      refine ⟨j + 1, by simpa using hj, by simp [newLOfd, heq], by simpa using hfree, ?_⟩
      intro i hi
      cases i with
      | zero => simp
      | succ i' => simpa using hocc i' (by omega)

theorem newLOfd_full (d : Desc) (ck : List (Option Desc))
    (h : ∀ i, i < ck.length → ck.getD i none ≠ none) :
    newLOfd d ck = none := by
  induction ck with
  | nil => rfl
  | cons c t ih =>
    cases c with
    | none =>
      exact absurd (by simp : ((none :: t).getD 0 none) = none) (h 0 (by simp))
    | some c0 =>
      have := ih (fun i hi => by simpa using h (i + 1) (by simpa using hi))
      simp [newLOfd, this]

theorem newLOfd_full_replicate (d c : Desc) (n : Nat) :
    newLOfd d (List.replicate n (some c)) = none := by
  induction n with
  | zero => rfl
  | succ m ih => simp [List.replicate_succ, newLOfd, ih]

theorem getD_replicate (n i : Nat) (a : Option Desc) (hi : i < n) :
    (List.replicate n a).getD i none = a := by
  induction n generalizing i with
  | zero => omega
  | succ m ih =>
    cases i with
    | zero => simp [List.replicate_succ]
    | succ j => simpa [List.replicate_succ] using ih j (by omega)

/-- C5: newLOfd is first-fit over index order: whenever some slot is empty it
stores the descriptor in the empty slot of lowest index and returns that
index; with all 256 slots occupied it fails; and after freeing any single
slot of a full table, one allocation succeeds returning exactly the freed
index, after which the next allocation fails again. -/
theorem C5_first_fit (d d' : Desc) :
    (∀ ck : List (Option Desc), (∃ i, i < ck.length ∧ ck.getD i none = none) →
      ∃ j, newLOfd d ck = some (j, ck.set j (some d)) ∧
        ck.getD j none = none ∧ (∀ i, i < j → ck.getD i none ≠ none)) ∧
    (∀ ck : List (Option Desc), ck.length = MAX_LOBJ_FDS →
      (∀ i, i < ck.length → ck.getD i none ≠ none) →
      newLOfd d ck = none) ∧
    (∀ (ck : List (Option Desc)) (j : Nat), ck.length = MAX_LOBJ_FDS →
      (∀ i, i < ck.length → ck.getD i none ≠ none) → j < MAX_LOBJ_FDS →
      newLOfd d (deleteLOfd j ck) = some (j, ck.set j (some d)) ∧
      newLOfd d' (ck.set j (some d)) = none) := by
  refine ⟨?_, ?_, ?_⟩
  · intro ck h
    obtain ⟨j, -, heq, hfree, hocc⟩ := newLOfd_first_free d ck h
    exact ⟨j, heq, hfree, hocc⟩
  · intro ck _ hfull
    exact newLOfd_full d ck hfull
  · intro ck j hlen hfull hj
    have hjlen : j < ck.length := by omega
    have hfree : ∃ i, i < (ck.set j none).length ∧ (ck.set j none).getD i none = none :=
      ⟨j, by simpa using hjlen, getD_set_self ck j none hjlen⟩
    obtain ⟨j0, hj0len, heq, hj0free, -⟩ := newLOfd_first_free d (ck.set j none) hfree
    have hj0 : j0 = j := by
      by_contra hne
      rw [getD_set_ne ck j0 j none hne] at hj0free
      exact hfull j0 (by simpa using hj0len) hj0free
    rw [hj0] at heq
    constructor
    · rw [deleteLOfd, heq, List.set_set]
    · apply newLOfd_full
      intro i hi
      by_cases hij : i = j
      · subst hij
        rw [getD_set_self ck i (some d) hjlen]
        simp
      · rw [getD_set_ne ck i j (some d) hij]
        exact hfull i (by simpa using hi)

/-- Witness for C5: a two-free-slot table for first-fit, the full 256-slot
table for exhaustion, and freeing slot 3 of the full table. -/
theorem C5_first_fit_witness :
    (∃ i, i < ([some 8, none, none] : List (Option Desc)).length ∧
       ([some 8, none, none] : List (Option Desc)).getD i none = none) ∧
    (∃ j, newLOfd 4 [some 8, none, none] = some (j, ([some 8, none, none].set j (some 4))) ∧
       ([some 8, none, none] : List (Option Desc)).getD j none = none ∧
       (∀ i, i < j → ([some 8, none, none] : List (Option Desc)).getD i none ≠ none)) ∧
    newLOfd 4 (List.replicate MAX_LOBJ_FDS (some 9)) = none ∧
    newLOfd 4 (deleteLOfd 3 (List.replicate MAX_LOBJ_FDS (some 9)))
      = some (3, (List.replicate MAX_LOBJ_FDS (some 9)).set 3 (some 4)) ∧
    newLOfd 6 ((List.replicate MAX_LOBJ_FDS (some 9)).set 3 (some 4)) = none := by
  have h := C5_first_fit 4 6
  have hfull : ∀ i, i < (List.replicate MAX_LOBJ_FDS (some 9) : List (Option Desc)).length →
      (List.replicate MAX_LOBJ_FDS (some 9) : List (Option Desc)).getD i none ≠ none := by
    intro i hi
    rw [getD_replicate MAX_LOBJ_FDS i (some 9) (by simpa using hi)]
    simp
  have h3 := h.2.2 (List.replicate MAX_LOBJ_FDS (some 9)) 3 (by simp) hfull
    (by rw [MAX_LOBJ_FDS]; omega)
  exact ⟨⟨1, by decide, by decide⟩,
    h.1 [some 8, none, none] ⟨1, by decide, by decide⟩,
    h.2.1 (List.replicate MAX_LOBJ_FDS (some 9)) (by simp) hfull,
    h3.1, h3.2⟩

/-! ### lo_commit lemmas -/

theorem commitLoop_cookies (b : Bool) (ck : List (Option Desc)) :
    (commitLoop b ck).1 = List.replicate ck.length none := by
  induction ck with
  | nil => rfl
  | cons c t ih => cases c <;> simp [commitLoop, ih, List.replicate_succ]

theorem commitLoop_calls (b : Bool) (ck : List (Option Desc)) :
    (commitLoop b ck).2 = if b then ck.filterMap id else [] := by
  induction ck with
  | nil => cases b <;> rfl
  | cons c t ih =>
    cases c with
    | none => simpa [commitLoop] using ih
    | some d => cases b <;> simp [commitLoop, ih]

theorem count_filterMap_id (ck : List (Option Desc)) (d : Desc) :
    (ck.filterMap id).count d = ck.count (some d) := by
  induction ck with
  | nil => rfl
  | cons c t ih =>
    cases c with
    | none => simp [List.count_cons, ih]
    | some c0 => simp [List.count_cons, ih]

/-- C2: when lo_commit runs in the Active state, inv_cleanindex is invoked
exactly for the occupied slots when committing (once per occupied slot, in
slot order) and for no slot when aborting, and in both cases every slot is
cleared and the memory context destroyed. -/
theorem C2_cleanindex_commit_only (flag : Bool) (s : LOState) (h : s.fscxt = true) :
    (lo_commit flag s).2 = (if flag then s.cookies.filterMap id else []) ∧
    (∀ d : Desc, flag = true →
      ((lo_commit flag s).2).count d = s.cookies.count (some d)) ∧
    (∀ i, ((lo_commit flag s).1).cookies.getD i none = none) ∧
    ((lo_commit flag s).1).fscxt = false := by
  refine ⟨?_, ?_, ?_, ?_⟩
  · simp [lo_commit, h, commitLoop_calls]
  · intro d hflag
    subst hflag
    simp [lo_commit, h, commitLoop_calls, count_filterMap_id]
  · intro i
    simp [lo_commit, h, commitLoop_cookies, getD_replicate_none]
  · simp [lo_commit, h]

/-- Witness for C2: aborting with two open handles makes no cleanup calls and
empties the table; committing the same state cleans both descriptors. -/
theorem C2_cleanindex_commit_only_witness :
    (⟨[some 3, none, some 5], true⟩ : LOState).fscxt = true ∧
    (lo_commit false ⟨[some 3, none, some 5], true⟩).2 = [] ∧
    (lo_commit true ⟨[some 3, none, some 5], true⟩).2 = [3, 5] ∧
    (lo_commit false ⟨[some 3, none, some 5], true⟩).1.cookies.getD 0 none = none ∧
    (lo_commit false ⟨[some 3, none, some 5], true⟩).1.fscxt = false := by
  have ha := C2_cleanindex_commit_only false ⟨[some 3, none, some 5], true⟩ rfl
  have hc := C2_cleanindex_commit_only true ⟨[some 3, none, some 5], true⟩ rfl
  refine ⟨rfl, by simpa using ha.1, ?_, ha.2.2.1 0, ha.2.2.2⟩
  rw [hc.1]
  decide

/-- C1: running lo_commit with either flag from the Active state empties every
table slot and clears the memory-context reference, so a subsequent lo_open
re-creates the context and its first allocation returns handle 0; running it
with the context absent changes nothing. -/
theorem C1_commit_invalidates_all (flag : Bool) (s : LOState)
    (ro : Nat → Int → Option Desc) (oid : Nat) (mode : Int) (d : Desc)
    (hlen : s.cookies.length = MAX_LOBJ_FDS) (hro : ro oid mode = some d) :
    (s.fscxt = true →
      (∀ i, ((lo_commit flag s).1).cookies.getD i none = none) ∧
      ((lo_commit flag s).1).fscxt = false ∧
      (lo_open ro oid mode (lo_commit flag s).1).1 = 0 ∧
      (lo_open ro oid mode (lo_commit flag s).1).2.1.fscxt = true ∧
      (∀ (ic : Int → Option Desc) (oidOf : Desc → Nat) (mode' : Int),
        (lo_creat ic oidOf mode' (lo_commit flag s).1).2.1.fscxt = true)) ∧
    (s.fscxt = false → lo_commit flag s = (s, [])) := by
  constructor
  · intro h
    have hck : ((lo_commit flag s).1).cookies = List.replicate MAX_LOBJ_FDS none := by
      simp [lo_commit, h, commitLoop_cookies, hlen]
    have hrep : (List.replicate MAX_LOBJ_FDS (none : Option Desc))
        = none :: List.replicate 255 none := by
      rw [MAX_LOBJ_FDS, List.replicate_succ]
    have hopen : lo_open ro oid mode (lo_commit flag s).1
        = (0, ⟨some d :: List.replicate 255 none, true⟩, []) := by
      simp only [lo_open, hro, hck, hrep]
      rfl
    refine ⟨fun i => by rw [hck]; exact getD_replicate_none _ _,
      by simp [lo_commit, h], by rw [hopen], by rw [hopen],
      fun ic oidOf mode' => by cases hic : ic mode' <;> simp [lo_creat, hic]⟩
  · intro h
    simp [lo_commit, h]

/-- Witness for C1: commit from a full Active table, then lo_open gets
handle 0; and lo_commit on the Idle state is the identity. -/
theorem C1_commit_invalidates_all_witness :
    ((List.replicate MAX_LOBJ_FDS (some 7) : List (Option Desc)).length = MAX_LOBJ_FDS) ∧
    ((fun _ _ => some 9 : Nat → Int → Option Desc) 5 0 = some 9) ∧
    (lo_open (fun _ _ => some 9) 5 0
      (lo_commit true ⟨List.replicate MAX_LOBJ_FDS (some 7), true⟩).1).1 = 0 ∧
    lo_commit false ⟨List.replicate MAX_LOBJ_FDS none, false⟩
      = (⟨List.replicate MAX_LOBJ_FDS none, false⟩, []) := by
  have h := C1_commit_invalidates_all true ⟨List.replicate MAX_LOBJ_FDS (some 7), true⟩
    (fun _ _ => some 9) 5 0 9 (by simp) rfl
  have h2 := C1_commit_invalidates_all false ⟨List.replicate MAX_LOBJ_FDS none, false⟩
    (fun _ _ => some 9) 5 0 9 (by simp) rfl
  exact ⟨by simp, rfl, (h.1 rfl).2.2.1, h2.2 rfl⟩

/-- C3 counterexample: a store-rejected open (inv_open returns NULL on the
all-free table) and a table-exhausted open (inv_open succeeds but all 256
slots are occupied) both return the same sentinel -1, so the two failure
causes are not distinguishable by the caller's observable result. -/
theorem C3_counterexample :
    (lo_open (fun _ _ => none) 7 0 ⟨List.replicate MAX_LOBJ_FDS none, true⟩).1 = -1 ∧
    (lo_open (fun _ _ => some 9) 7 0 ⟨List.replicate MAX_LOBJ_FDS (some 3), true⟩).1 = -1 ∧
    (lo_open (fun _ _ => none) 7 0 ⟨List.replicate MAX_LOBJ_FDS none, true⟩).1 =
      (lo_open (fun _ _ => some 9) 7 0 ⟨List.replicate MAX_LOBJ_FDS (some 3), true⟩).1 := by
  have hfull := newLOfd_full_replicate 9 3 MAX_LOBJ_FDS
  refine ⟨rfl, ?_, ?_⟩ <;> simp [lo_open, hfull]

/-- C3 amended: lo_open returns the same sentinel value -1 both when the
store rejects the open and when the handle table is exhausted; the two
failure causes are not distinguishable from the returned handle value. -/
theorem C3_same_sentinel (ro : Nat → Int → Option Desc) (oid : Nat)
    (mode : Int) (s : LOState) (d : Desc) :
    (ro oid mode = none → (lo_open ro oid mode s).1 = -1) ∧
    (ro oid mode = some d →
      (∀ i, i < s.cookies.length → s.cookies.getD i none ≠ none) →
      (lo_open ro oid mode s).1 = -1) := by
  constructor
  · intro h
    simp [lo_open, h]
  · intro h hfull
    have : newLOfd d s.cookies = none := newLOfd_full d s.cookies hfull
    simp [lo_open, h, this]

/-- Witness for C3 amended: both failure paths at concrete one-slot tables. -/
theorem C3_same_sentinel_witness :
    ((fun _ _ => none : Nat → Int → Option Desc) 7 0 = none ∧
      (lo_open (fun _ _ => none) 7 0 ⟨[none], true⟩).1 = -1) ∧
    ((fun _ _ => some 9 : Nat → Int → Option Desc) 7 0 = some 9 ∧
      (lo_open (fun _ _ => some 9) 7 0 ⟨[some 3], true⟩).1 = -1) :=
  ⟨⟨rfl, (C3_same_sentinel (fun _ _ => none) 7 0 ⟨[none], true⟩ 0).1 rfl⟩,
   ⟨rfl, (C3_same_sentinel (fun _ _ => some 9) 7 0 ⟨[some 3], true⟩ 9).2 rfl (by decide)⟩⟩

/-- C6 counterexample: when inv_open succeeds (descriptor 9) but every one of
the 256 slots is occupied, lo_open returns -1 without making any inv_close
call, so the descriptor it obtained is not released before returning. -/
theorem C6_counterexample :
    (lo_open (fun _ _ => some 9) 7 0 ⟨List.replicate MAX_LOBJ_FDS (some 3), true⟩).1 = -1 ∧
    (lo_open (fun _ _ => some 9) 7 0 ⟨List.replicate MAX_LOBJ_FDS (some 3), true⟩).2.2 = [] := by
  have hfull := newLOfd_full_replicate 9 3 MAX_LOBJ_FDS
  constructor <;> simp [lo_open, hfull]

/-- C6 amended: when lo_open obtains a store descriptor but newLOfd finds no
free slot, it returns -1 without inv_closing the descriptor and without
changing the table; the descriptor stays allocated in the memory context and
is reclaimed only when lo_commit destroys it at transaction end. -/
theorem C6_no_release_on_exhaustion (ro : Nat → Int → Option Desc) (oid : Nat)
    (mode : Int) (s : LOState) (d : Desc) (hro : ro oid mode = some d)
    (hfull : ∀ i, i < s.cookies.length → s.cookies.getD i none ≠ none) :
    (lo_open ro oid mode s).1 = -1 ∧
    (lo_open ro oid mode s).2.2 = [] ∧
    (lo_open ro oid mode s).2.1.cookies = s.cookies := by
  have : newLOfd d s.cookies = none := newLOfd_full d s.cookies hfull
  refine ⟨?_, ?_, ?_⟩ <;> simp [lo_open, hro, this]

/-- Witness for C6 amended: exhaustion on a full one-slot table. -/
theorem C6_no_release_on_exhaustion_witness :
    ((fun _ _ => some 9 : Nat → Int → Option Desc) 7 0 = some 9) ∧
    (lo_open (fun _ _ => some 9) 7 0 ⟨[some 3], true⟩).1 = -1 ∧
    (lo_open (fun _ _ => some 9) 7 0 ⟨[some 3], true⟩).2.2 = [] ∧
    (lo_open (fun _ _ => some 9) 7 0 ⟨[some 3], true⟩).2.1.cookies = [some 3] := by
  have h := C6_no_release_on_exhaustion (fun _ _ => some 9) 7 0 ⟨[some 3], true⟩ 9
    rfl (by decide)
  exact ⟨rfl, h.1, h.2.1, h.2.2⟩

/-! ### Import copy-loop lemmas -/

theorem chunksOfAux_sum (fuel : Nat) :
    ∀ n, n ≤ fuel → (chunksOfAux fuel n).sum = n := by
  induction fuel with
  | zero =>
    intro n h
    have : n = 0 := by omega
    subst this
    rfl
  | succ f ih =>
    intro n h
    cases n with
    | zero => rfl
    | succ m =>
      have hmin : 1 ≤ min BUFSIZE (m + 1) ∧ min BUFSIZE (m + 1) ≤ m + 1 := by
        rw [BUFSIZE]; omega
      simp only [chunksOfAux, List.sum_cons]
      rw [ih (m + 1 - min BUFSIZE (m + 1)) (by omega)]
      omega

theorem importLoopAux_full (w : Nat → Nat → Nat) (hw : ∀ i c, c ≤ w i c) :
    ∀ fuel idx n, importLoopAux w fuel idx n = .ok (chunksOfAux fuel n) := by
  intro fuel
  induction fuel with
  | zero => intro idx n; simp [importLoopAux, chunksOfAux]
  | succ f ih =>
    intro idx n
    cases n with
    | zero => simp [importLoopAux, chunksOfAux]
    | succ m =>
      have h := hw idx (min BUFSIZE (m + 1))
      simp only [importLoopAux, chunksOfAux]
      rw [if_neg (by omega), ih (idx + 1) (m + 1 - min BUFSIZE (m + 1))]

theorem importLoopAux_ok_all_full (w : Nat → Nat → Nat) :
    ∀ fuel idx n l, importLoopAux w fuel idx n = .ok l →
      ∀ j, j < (chunksOfAux fuel n).length →
        (chunksOfAux fuel n).getD j 0 ≤ w (idx + j) ((chunksOfAux fuel n).getD j 0) := by
  intro fuel
  induction fuel with
  | zero =>
    intro idx n l _ j hj
    simp [chunksOfAux] at hj
  | succ f ih =>
    intro idx n l h j hj
    cases n with
    | zero => simp [chunksOfAux] at hj
    | succ m =>
      by_cases hs : w idx (min BUFSIZE (m + 1)) < min BUFSIZE (m + 1)
      · simp [importLoopAux, hs] at h
      · cases j with
        | zero =>
          simp only [chunksOfAux, List.getD_cons_zero, Nat.add_zero]
          omega
        | succ j' =>
          cases hin : importLoopAux w f (idx + 1) (m + 1 - min BUFSIZE (m + 1)) with
          | error e => simp [importLoopAux, hs, hin] at h
          | ok l' =>
            have hrec := ih (idx + 1) (m + 1 - min BUFSIZE (m + 1)) l' hin j'
              (by simpa [chunksOfAux] using hj)
            have harith : idx + 1 + j' = idx + (j' + 1) := by omega
            rw [harith] at hrec
            simpa [chunksOfAux] using hrec

/-- C8: lo_import copies in chunks of exactly BUFSIZE = 1024 bytes with a
final partial chunk: with a store that writes every chunk in full, the copy
succeeds and the object length equals the file length; a 5000-byte file is
transferred in 5 chunks of 1024, 1024, 1024, 1024 and 904 bytes; and if the
store writes fewer bytes than requested on any chunk, the whole import aborts
with the fatal copy error. -/
theorem C8_import_chunks :
    (∀ (w : Nat → Nat → Nat) (n : Nat), (∀ i c, c ≤ w i c) →
      lo_import_copy w n = .ok (chunksOf n) ∧ (chunksOf n).sum = n) ∧
    chunksOf 5000 = [1024, 1024, 1024, 1024, 904] ∧
    (∀ (w : Nat → Nat → Nat) (n : Nat),
      (∃ j, j < (chunksOf n).length ∧
        w j ((chunksOf n).getD j 0) < (chunksOf n).getD j 0) →
      lo_import_copy w n = .error ()) := by
  refine ⟨?_, by decide, ?_⟩
  · intro w n hw
    exact ⟨importLoopAux_full w hw n 0 n, chunksOfAux_sum n n le_rfl⟩
  · intro w n hex
    obtain ⟨j, hj, hshort⟩ := hex
    simp only [chunksOf] at hj hshort
    cases h : lo_import_copy w n with
    | ok l =>
      have := importLoopAux_ok_all_full w n 0 n l h j hj
      rw [Nat.zero_add] at this
      exact absurd this (by omega)
    | error e => cases e; rfl

/-- Witness for C8: the identity store copies the 5000-byte file in the five
chunks summing to 5000, and a store that writes nothing aborts the import. -/
theorem C8_import_chunks_witness :
    (∀ i c : Nat, c ≤ (fun _ c => c : Nat → Nat → Nat) i c) ∧
    lo_import_copy (fun _ c => c) 5000 = .ok (chunksOf 5000) ∧
    (chunksOf 5000).sum = 5000 ∧
    (0 < (chunksOf 5000).length ∧
      (fun _ _ => 0 : Nat → Nat → Nat) 0 ((chunksOf 5000).getD 0 0)
        < (chunksOf 5000).getD 0 0) ∧
    lo_import_copy (fun _ _ => 0) 5000 = .error () := by
  have h := C8_import_chunks
  exact ⟨fun i c => le_rfl,
    (h.1 (fun _ c => c) 5000 (fun _ _ => le_rfl)).1,
    (h.1 (fun _ c => c) 5000 (fun _ _ => le_rfl)).2,
    ⟨by decide, by decide⟩,
    h.2.2 (fun _ _ => 0) 5000 ⟨0, by decide, by decide⟩⟩

end BeFsstubs
